import Mathlib

/-!
Shallow embedding of the SuiProof content-anchoring contract
(`sui/sources/suiproof.move`, module `suiproof::suiproof`) and proofs of the
registry properties stated in the specification.

Modelling conventions:
* Move `vector<u8>` values (content hashes, strings before `string::utf8`)
  are `List Nat`; `string::utf8` is modelled as the identity on the byte list
  (UTF-8 validity is irrelevant to the properties proved here).
* Move `address` and object `ID` values are `Nat`; the null address `@0x0`
  (used as the parent sentinel for originals) is `0`.
* `sui::table::Table<vector<u8>, AnchorInfo>` is an association list in
  insertion order: `table::add` appends, `table::contains` scans for the key,
  and `table::borrow` returns `Option` — `none` models the Move abort on a
  missing key.
* A transaction context supplies the sender, the epoch timestamp in
  milliseconds, and the fresh object id handed out by `object::new`.
* An aborting Move call is `Except.error code` / `none`; since the embedding
  is pure, the caller's state is untouched on abort exactly as a Move abort
  rolls the transaction back.  `u64` arithmetic aborts on overflow, which is
  modelled by an explicit bound check against `2 ^ 64`.
* Event emission (`event::emit`) and object transfer bookkeeping beyond the
  owned-object lists of `SuiState` are not modelled: no claim below mentions
  them.
-/

namespace SuiProof

/-- Byte strings (`vector<u8>` in Move). -/
abbrev Bytes := List Nat

/-- One more than the largest `u64`; Move `u64` arithmetic aborts at this bound. -/
def U64_LIMIT : Nat := 2 ^ 64

/-- Abort code `E_ANCHOR_ALREADY_EXISTS = 0`: an anchor already exists for the hash. -/
def E_ANCHOR_ALREADY_EXISTS : Nat := 0

/-- Abort code `E_UNAUTHORIZED = 1` (declared in the source; unused by the registry). -/
def E_UNAUTHORIZED : Nat := 1

/-- The null object id, `object::id_from_address(@0x0)`. -/
def NULL_ID : Nat := 0

/-- The transaction context: sender address, epoch timestamp (ms), and the
fresh object id that `object::new` returns during this call. -/
structure TxContext where
  sender : Nat
  epoch_timestamp_ms : Nat
  fresh : Nat
deriving Repr, DecidableEq

/-- `AnchorInfo`: the per-anchor projection stored in the manifest table. -/
structure AnchorInfo where
  anchor_id : Nat
  creator : Nat
  created_at : Nat
deriving Repr, DecidableEq

/-- `Anchor`: the owned object created by `create_anchor`. -/
structure Anchor where
  id : Nat
  content_hash : Bytes
  creator : Nat
  created_at : Nat
deriving Repr, DecidableEq

/-- `MediaManifest`: an original capture or an edited derivative with
provenance metadata. -/
structure MediaManifest where
  id : Nat
  ipfs_cid : Bytes
  content_hash : Bytes
  gps_coordinates : Bytes
  agency_id : Bytes
  creator : Nat
  created_at : Nat
  parent_id : Nat
  edit_type : Bytes
  is_original : Bool
deriving Repr, DecidableEq

/-- The `Table<vector<u8>, AnchorInfo>` field of the manifest, as an
association list in insertion order. -/
abbrev AnchorTable := List (Bytes × AnchorInfo)

/-- `table::contains(&t, k)`. -/
def tableContains (t : AnchorTable) (k : Bytes) : Bool :=
  t.any (fun e => e.1 == k)

/-- `table::borrow(&t, k)`; `none` models the abort on a missing key. -/
def tableBorrow (t : AnchorTable) (k : Bytes) : Option AnchorInfo :=
  (t.find? (fun e => e.1 == k)).map (fun e => e.2)

/-- `table::add(&mut t, k, v)` (only ever called on an absent key). -/
def tableAdd (t : AnchorTable) (k : Bytes) (v : AnchorInfo) : AnchorTable :=
  t ++ [(k, v)]

/-- The shared `Manifest` object: the anchors table plus the enumeration list
of all content hashes. -/
structure Manifest where
  anchors : AnchorTable
  content_hashes : List Bytes
deriving Repr, DecidableEq

/-- The manifest created by `init`: empty table, empty hash list. -/
def initManifest : Manifest := ⟨[], []⟩

/-- `create_anchor(manifest, content_hash, ctx)`: aborts with
`E_ANCHOR_ALREADY_EXISTS` when the hash is already in the table, otherwise
builds the `Anchor` object and its `AnchorInfo`, appends the hash to
`content_hashes` and adds the info to the table. -/
def create_anchor (m : Manifest) (content_hash : Bytes) (ctx : TxContext) :
    Except Nat (Manifest × Anchor) :=
  if tableContains m.anchors content_hash then
    Except.error E_ANCHOR_ALREADY_EXISTS
  else
    let sender := ctx.sender
    let created_at := ctx.epoch_timestamp_ms
    let anchor : Anchor := ⟨ctx.fresh, content_hash, sender, created_at⟩
    let anchor_info : AnchorInfo := ⟨ctx.fresh, sender, created_at⟩
    Except.ok
      (⟨tableAdd m.anchors content_hash anchor_info,
        m.content_hashes ++ [content_hash]⟩, anchor)

/-- `verify_content(manifest, content_hash)`. -/
def verify_content (m : Manifest) (content_hash : Bytes) : Bool :=
  tableContains m.anchors content_hash

/-- `get_anchor_info(manifest, content_hash)`: `*table::borrow(...)`,
aborting (`none`) when the hash is absent. -/
def get_anchor_info (m : Manifest) (content_hash : Bytes) : Option AnchorInfo :=
  tableBorrow m.anchors content_hash

/-- The zero-filled `AnchorInfo` returned by the not-found branch of
`try_get_anchor_info`. -/
def defaultAnchorInfo : AnchorInfo := ⟨NULL_ID, 0, 0⟩

/-- `try_get_anchor_info(manifest, content_hash)`: `(true, stored info)` when
the hash is present, `(false, zero-filled default)` otherwise.  The outer
`Option` records that the `table::borrow` in the found branch could in
principle abort; it never does there. -/
def try_get_anchor_info (m : Manifest) (content_hash : Bytes) :
    Option (Bool × AnchorInfo) :=
  if tableContains m.anchors content_hash then
    (tableBorrow m.anchors content_hash).map (fun info => (true, info))
  else
    some (false, defaultAnchorInfo)

/-- `get_content_hashes(manifest)`: returns the `content_hashes` field (Move
copies the vector out). -/
def get_content_hashes (m : Manifest) : List Bytes :=
  m.content_hashes

/-- `get_anchor_count(manifest) = vector::length(&manifest.content_hashes)`. -/
def get_anchor_count (m : Manifest) : Nat :=
  m.content_hashes.length

/-- The `while (i < end)` loop of `get_paginated_anchor_infos`, with the
remaining iteration count `steps = end - i` made explicit so the recursion is
structural.  Each step reads the hash at position `i` (`vector::borrow`; out
of bounds aborts) and borrows its `AnchorInfo` from the table (missing key
aborts). -/
def paginateLoop (m : Manifest) : Nat → Nat → List AnchorInfo →
    Option (List AnchorInfo)
  | 0, _, acc => some acc
  | steps + 1, i, acc =>
    match m.content_hashes[i]? with
    | none => none
    | some ch =>
      match tableBorrow m.anchors ch with
      | none => none
      | some info => paginateLoop m steps (i + 1) (acc ++ [info])

/-- `get_paginated_anchor_infos(manifest, start, limit)`: empty result when
`start` is past the end; otherwise `end = if (start + limit > len) len else
start + limit` — where the `u64` addition `start + limit` aborts on overflow,
modelled by the `U64_LIMIT` guard — and the loop collects the infos for
positions `[start, end)`. -/
def get_paginated_anchor_infos (m : Manifest) (start limit : Nat) :
    Option (List AnchorInfo) :=
  let len := m.content_hashes.length
  if start ≥ len then
    some []
  else if U64_LIMIT ≤ start + limit then
    none
  else
    let e := if len < start + limit then len else start + limit
    paginateLoop m (e - start) start []

/-- An execution state: the shared manifest plus the owned objects transferred
out by the entry functions. -/
structure SuiState where
  manifest : Manifest
  owned_media : List MediaManifest
  owned_anchors : List Anchor
deriving Repr, DecidableEq

/-- The state right after `init`. -/
def initState : SuiState := ⟨initManifest, [], []⟩

/-- `anchor_original_media(ipfs_cid, content_hash, gps_coordinates, agency_id,
ctx)`: builds an original `MediaManifest` — `parent_id = @0x0`, empty
`edit_type`, `is_original = true`, `creator = sender`, `created_at` from the
context clock — and transfers it to the sender.  The shared `Manifest` is not
a parameter of the Move function; the state threading makes that visible. -/
def anchor_original_media (s : SuiState)
    (ipfs_cid content_hash gps_coordinates agency_id : Bytes)
    (ctx : TxContext) : Except Nat SuiState :=
  let sender := ctx.sender
  let created_at := ctx.epoch_timestamp_ms
  let media_manifest : MediaManifest :=
    ⟨ctx.fresh, ipfs_cid, content_hash, gps_coordinates, agency_id,
      sender, created_at, NULL_ID, [], true⟩
  Except.ok ⟨s.manifest, s.owned_media ++ [media_manifest], s.owned_anchors⟩

/-- `create_edited_version(original_manifest, new_ipfs_cid, new_content_hash,
edit_type, ctx)`: builds a derivative `MediaManifest` inheriting
`gps_coordinates` and `agency_id` from the original, with `parent_id =
object::id(original_manifest)`, the supplied `edit_type`, `is_original =
false`, and a fresh `created_at` from the context clock. -/
def create_edited_version (s : SuiState) (original_manifest : MediaManifest)
    (new_ipfs_cid new_content_hash edit_type : Bytes)
    (ctx : TxContext) : Except Nat SuiState :=
  let sender := ctx.sender
  let created_at := ctx.epoch_timestamp_ms
  let edited_manifest : MediaManifest :=
    ⟨ctx.fresh, new_ipfs_cid, new_content_hash,
      original_manifest.gps_coordinates, original_manifest.agency_id,
      sender, created_at, original_manifest.id, edit_type, false⟩
  Except.ok ⟨s.manifest, s.owned_media ++ [edited_manifest], s.owned_anchors⟩

/-- A state-mutating registry transaction (the view functions mutate
nothing). -/
inductive ROp where
  | createAnchorOp (content_hash : Bytes) (ctx : TxContext)
  | anchorOriginalMediaOp
      (ipfs_cid content_hash gps_coordinates agency_id : Bytes)
      (ctx : TxContext)
  | createEditedVersionOp (original_manifest : MediaManifest)
      (new_ipfs_cid new_content_hash edit_type : Bytes) (ctx : TxContext)

/-- Apply one transaction; an aborting transaction is rolled back, leaving the
state unchanged. -/
def applyROp (s : SuiState) : ROp → SuiState
  | ROp.createAnchorOp ch ctx =>
    match create_anchor s.manifest ch ctx with
    | Except.ok (m', a) => ⟨m', s.owned_media, s.owned_anchors ++ [a]⟩
    | Except.error _ => s
  | ROp.anchorOriginalMediaOp cid ch gps ag ctx =>
    match anchor_original_media s cid ch gps ag ctx with
    | Except.ok s' => s'
    | Except.error _ => s
  | ROp.createEditedVersionOp orig cid ch et ctx =>
    match create_edited_version s orig cid ch et ctx with
    | Except.ok s' => s'
    | Except.error _ => s

/-- Run a sequence of transactions from the post-`init` state. -/
def applyOps (ops : List ROp) : SuiState :=
  ops.foldl applyROp initState

/-- The registry aggregate invariant: the enumeration list is exactly the
table's keys in insertion order and has no duplicates. -/
def manifestInv (m : Manifest) : Prop :=
  m.content_hashes = m.anchors.map Prod.fst ∧ m.content_hashes.Nodup

instance (m : Manifest) : Decidable (manifestInv m) := by
  unfold manifestInv; infer_instance

deriving instance DecidableEq for Except

/-- One `create_anchor` transaction applied to the bare manifest; a failed
call leaves the manifest unchanged. -/
def applyInsert (m : Manifest) (r : Bytes × TxContext) : Manifest :=
  match create_anchor m r.1 r.2 with
  | Except.ok p => p.1
  | Except.error _ => m

/-- Run a sequence of `create_anchor` requests against the freshly
initialized manifest. -/
def applyInserts (reqs : List (Bytes × TxContext)) : Manifest :=
  reqs.foldl applyInsert initManifest

/-- The specification's notion of one insert step on the insertion-order
list: a fingerprint is appended exactly when its insert succeeds, i.e. when
it has not been successfully inserted before. -/
def specInsertStep (acc : List Bytes) (r : Bytes × TxContext) : List Bytes :=
  if r.1 ∈ acc then acc else acc ++ [r.1]

/-- The specification's "order the fingerprints were successfully inserted"
for a request sequence. -/
def specInsertionOrder (reqs : List (Bytes × TxContext)) : List Bytes :=
  reqs.foldl specInsertStep []

/-- The content hashes at positions `[start, min(start + limit, count))` of
the insertion order — the window the specification says pagination returns. -/
def paginated_positions (m : Manifest) (start limit : Nat) : List Bytes :=
  (m.content_hashes.drop start).take
    (min (start + limit) m.content_hashes.length - start)

/-- The stored records for the hashes in the pagination window. -/
def paginated_records (m : Manifest) (start limit : Nat) : List AnchorInfo :=
  (paginated_positions m start limit).filterMap (tableBorrow m.anchors)

/-! Concrete fixtures used by witnesses and counterexamples. -/

/-- A sample content hash. -/
def hashA : Bytes := [1, 2]

/-- A second sample content hash. -/
def hashB : Bytes := [3, 4]

/-- A third sample content hash. -/
def hashC : Bytes := [5, 6]

/-- A hash that is absent from the sample manifests. -/
def hashAbsent : Bytes := [9, 9]

/-- Sample stored info for `hashA`. -/
def infoA : AnchorInfo := ⟨101, 71, 1001⟩

/-- Sample stored info for `hashB`. -/
def infoB : AnchorInfo := ⟨102, 72, 1002⟩

/-- Sample stored info for `hashC`. -/
def infoC : AnchorInfo := ⟨103, 73, 1003⟩

/-- A two-anchor manifest satisfying the registry invariant. -/
def sampleManifest : Manifest := ⟨[(hashA, infoA), (hashB, infoB)], [hashA, hashB]⟩

/-- A three-anchor manifest satisfying the registry invariant. -/
def wideManifest : Manifest :=
  ⟨[(hashA, infoA), (hashB, infoB), (hashC, infoC)], [hashA, hashB, hashC]⟩

/-- A state whose shared manifest is `sampleManifest`. -/
def sampleState : SuiState := ⟨sampleManifest, [], []⟩

/-- A sample transaction context. -/
def ctx0 : TxContext := ⟨77, 5000, 42⟩

/-- A sample original media manifest (a parent for derivatives). -/
def parentMedia : MediaManifest :=
  ⟨9, [10], hashA, [40, 41], [50, 51], 77, 500, 0, [], true⟩

/-! Helper lemmas about the table embedding. -/

/-- A key is contained in the table iff it occurs among the table's keys. -/
theorem tableContains_iff_mem (t : AnchorTable) (k : Bytes) :
    tableContains t k = true ↔ k ∈ t.map Prod.fst := by
  simp [tableContains, List.any_eq_true, List.mem_map]

/-- Borrowing succeeds exactly on contained keys. -/
theorem tableBorrow_isSome_iff (t : AnchorTable) (k : Bytes) :
    (tableBorrow t k).isSome = true ↔ tableContains t k = true := by
  simp [tableBorrow, tableContains, List.find?_isSome, List.any_eq_true]

/-- Borrowing an absent key aborts. -/
theorem tableBorrow_eq_none (t : AnchorTable) (k : Bytes)
    (h : tableContains t k = false) : tableBorrow t k = none := by
  cases hb : tableBorrow t k with
  | none => rfl
  | some v =>
    have : tableContains t k = true :=
      (tableBorrow_isSome_iff t k).mp (by simp [hb])
    rw [h] at this
    exact Bool.noConfusion this

/-- Adding a fresh key preserves the registry invariant whatever info is
stored with it. -/
theorem manifestInv_tableAdd (m : Manifest) (ch : Bytes) (info : AnchorInfo)
    (hinv : manifestInv m) (h : tableContains m.anchors ch = false) :
    manifestInv ⟨tableAdd m.anchors ch info, m.content_hashes ++ [ch]⟩ := by
  obtain ⟨h1, h2⟩ := hinv
  have hnotmem : ch ∉ m.content_hashes := by
    intro hmem
    rw [h1] at hmem
    have := (tableContains_iff_mem m.anchors ch).mpr hmem
    rw [h] at this
    exact Bool.noConfusion this
  constructor
  · simp [tableAdd, h1]
  · rw [List.nodup_append]
    exact ⟨h2, List.nodup_singleton ch, by
      intro a ha hb
      rw [List.mem_singleton] at hb
      exact hnotmem (hb ▸ ha)⟩

/-- The manifest produced by `init` satisfies the invariant. -/
theorem manifestInv_init : manifestInv initManifest := by
  constructor <;> simp [initManifest]

/-- Every transaction preserves the registry invariant. -/
theorem manifestInv_applyROp (s : SuiState) (op : ROp)
    (hinv : manifestInv s.manifest) : manifestInv (applyROp s op).manifest := by
  cases op with
  | createAnchorOp ch ctx =>
    cases hc : tableContains s.manifest.anchors ch with
    | true => simpa [applyROp, create_anchor, hc] using hinv
    | false =>
      simpa [applyROp, create_anchor, hc] using
        manifestInv_tableAdd s.manifest ch
          ⟨ctx.fresh, ctx.sender, ctx.epoch_timestamp_ms⟩ hinv hc
  | anchorOriginalMediaOp cid ch gps ag ctx =>
    simpa [applyROp, anchor_original_media] using hinv
  | createEditedVersionOp orig cid ch et ctx =>
    simpa [applyROp, create_edited_version] using hinv

/-- The invariant is preserved along any transaction sequence. -/
theorem manifestInv_foldl (ops : List ROp) :
    ∀ s : SuiState, manifestInv s.manifest →
      manifestInv (ops.foldl applyROp s).manifest := by
  induction ops with
  | nil => intro s h; exact h
  | cons op ops ih => intro s h; exact ih _ (manifestInv_applyROp s op h)

/-- Under the invariant, every hash in the enumeration list can be borrowed
from the table. -/
theorem inv_borrow_isSome (m : Manifest) (hinv : manifestInv m) :
    ∀ ch ∈ m.content_hashes, (tableBorrow m.anchors ch).isSome = true := by
  intro ch hch
  exact (tableBorrow_isSome_iff _ _).mpr
    ((tableContains_iff_mem _ _).mpr (hinv.1 ▸ hch))

/-- `filterMap` by an everywhere-defined function preserves length. -/
theorem length_filterMap_isSome (l : List Bytes) (f : Bytes → Option AnchorInfo)
    (h : ∀ x ∈ l, (f x).isSome = true) : (l.filterMap f).length = l.length := by
  induction l with
  | nil => rfl
  | cons a l ih =>
    obtain ⟨b, hb⟩ := Option.isSome_iff_exists.mp (h a (List.mem_cons_self a l))
    simp [List.filterMap_cons, hb,
      ih (fun x hx => h x (List.mem_cons_of_mem a hx))]

/-- A run of `create_anchor` requests against a manifest satisfying the
invariant grows `content_hashes` exactly by the specification's insert steps
and keeps the invariant. -/
theorem applyInserts_foldl (reqs : List (Bytes × TxContext)) :
    ∀ m : Manifest, manifestInv m →
      (reqs.foldl applyInsert m).content_hashes =
        reqs.foldl specInsertStep m.content_hashes ∧
      manifestInv (reqs.foldl applyInsert m) := by
  induction reqs with
  | nil => intro m hinv; exact ⟨rfl, hinv⟩
  | cons r reqs ih =>
    intro m hinv
    cases hc : tableContains m.anchors r.1 with
    | true =>
      have hmem : r.1 ∈ m.content_hashes := by
        rw [hinv.1]; exact (tableContains_iff_mem _ _).mp hc
      have hstep : applyInsert m r = m := by
        simp [applyInsert, create_anchor, hc]
      have hspec : specInsertStep m.content_hashes r = m.content_hashes := by
        simp [specInsertStep, hmem]
      rw [List.foldl_cons, List.foldl_cons, hstep, hspec]
      exact ih m hinv
    | false =>
      have hmem : r.1 ∉ m.content_hashes := by
        intro hm
        rw [hinv.1] at hm
        have := (tableContains_iff_mem _ _).mpr hm
        rw [hc] at this
        exact Bool.noConfusion this
      have hstep : applyInsert m r =
          ⟨tableAdd m.anchors r.1 ⟨r.2.fresh, r.2.sender, r.2.epoch_timestamp_ms⟩,
            m.content_hashes ++ [r.1]⟩ := by
        simp [applyInsert, create_anchor, hc]
      have hspec : specInsertStep m.content_hashes r =
          m.content_hashes ++ [r.1] := by
        simp [specInsertStep, hmem]
      rw [List.foldl_cons, List.foldl_cons, hstep, hspec]
      exact ih _ (manifestInv_tableAdd m r.1 _ hinv hc)

/-- C1: `create_anchor` on a fingerprint already present in the anchors table
aborts with `E_ANCHOR_ALREADY_EXISTS` (`DuplicateFingerprint`) and the
transaction leaves the state — anchors table and `content_hashes` included —
exactly as it was; on an absent fingerprint the call succeeds. -/
theorem create_anchor_duplicate_fingerprint (s : SuiState) (ch : Bytes)
    (ctx : TxContext) :
    (verify_content s.manifest ch = true →
      create_anchor s.manifest ch ctx = Except.error E_ANCHOR_ALREADY_EXISTS ∧
      applyROp s (ROp.createAnchorOp ch ctx) = s) ∧
    (verify_content s.manifest ch = false →
      ∃ p, create_anchor s.manifest ch ctx = Except.ok p) := by
  constructor
  · intro h
    rw [verify_content] at h
    constructor
    · simp [create_anchor, h]
    · simp [applyROp, create_anchor, h]
  · intro h
    rw [verify_content] at h
    refine ⟨(⟨tableAdd s.manifest.anchors ch
        ⟨ctx.fresh, ctx.sender, ctx.epoch_timestamp_ms⟩,
        s.manifest.content_hashes ++ [ch]⟩,
      ⟨ctx.fresh, ch, ctx.sender, ctx.epoch_timestamp_ms⟩), ?_⟩
    simp [create_anchor, h]

/-- Witness for C1: in the sample state, re-anchoring `hashA` aborts with
code 0 and changes nothing, while anchoring the absent hash succeeds. -/
theorem create_anchor_duplicate_fingerprint_witness :
    (create_anchor sampleState.manifest hashA ctx0 =
        Except.error E_ANCHOR_ALREADY_EXISTS ∧
      applyROp sampleState (ROp.createAnchorOp hashA ctx0) = sampleState) ∧
    ∃ p, create_anchor sampleState.manifest hashAbsent ctx0 = Except.ok p :=
  ⟨(create_anchor_duplicate_fingerprint sampleState hashA ctx0).1 (by decide),
    (create_anchor_duplicate_fingerprint sampleState hashAbsent ctx0).2
      (by decide)⟩

/-- C2 counterexample: `hashA` is already recorded in the sample manifest's
anchors table, yet `create_edited_version` and `anchor_original_media` called
with `hashA` as the new content hash both succeed instead of failing with
`DuplicateFingerprint`: neither function performs any duplicate-fingerprint
check (they do not even receive the `Manifest`). -/
theorem media_inserts_skip_duplicate_check_cx :
    verify_content sampleState.manifest hashA = true ∧
    create_edited_version sampleState parentMedia [20] hashA [30] ctx0 ≠
      Except.error E_ANCHOR_ALREADY_EXISTS ∧
    (∃ s', create_edited_version sampleState parentMedia [20] hashA [30] ctx0 =
      Except.ok s') ∧
    anchor_original_media sampleState [20] hashA [40] [50] ctx0 ≠
      Except.error E_ANCHOR_ALREADY_EXISTS ∧
    (∃ s', anchor_original_media sampleState [20] hashA [40] [50] ctx0 =
      Except.ok s') :=
  ⟨by decide, by decide, ⟨_, rfl⟩, by decide, ⟨_, rfl⟩⟩

/-- C2 amended: `anchor_original_media` and `create_edited_version` perform
no duplicate-fingerprint check at all — for every state and every supplied
content hash, including one equal to an existing record's fingerprint, both
operations succeed and never abort with `E_ANCHOR_ALREADY_EXISTS`. -/
theorem media_inserts_never_fail_on_duplicate (s : SuiState)
    (orig : MediaManifest) (cid ch gps ag et : Bytes) (ctx : TxContext) :
    (∃ s', anchor_original_media s cid ch gps ag ctx = Except.ok s') ∧
    (∃ s', create_edited_version s orig cid ch et ctx = Except.ok s') ∧
    anchor_original_media s cid ch gps ag ctx ≠
      Except.error E_ANCHOR_ALREADY_EXISTS ∧
    create_edited_version s orig cid ch et ctx ≠
      Except.error E_ANCHOR_ALREADY_EXISTS := by
  refine ⟨⟨_, rfl⟩, ⟨_, rfl⟩, ?_, ?_⟩ <;> intro h <;> exact Except.noConfusion h

/-- C3: every state reachable from the post-`init` state by any sequence of
transactions has a manifest in which `content_hashes` is exactly the list of
keys of the anchors table in insertion order, without duplicates, and of the
same length as the table. -/
theorem registry_invariant_reachable (ops : List ROp) :
    (applyOps ops).manifest.content_hashes =
      (applyOps ops).manifest.anchors.map Prod.fst ∧
    (applyOps ops).manifest.content_hashes.Nodup ∧
    (applyOps ops).manifest.content_hashes.length =
      (applyOps ops).manifest.anchors.length := by
  have h : manifestInv (applyOps ops).manifest :=
    manifestInv_foldl ops initState manifestInv_init
  exact ⟨h.1, h.2, by rw [h.1, List.length_map]⟩

/-- C4: a successful `anchor_original_media` creates a record with
`is_original = true`, the null `parent_id` sentinel, empty `edit_type`,
`creator` the transaction sender, and `created_at` read from the transaction
context's clock (no caller-supplied timestamp parameter exists); every record
created by `create_edited_version` has `is_original = false`. -/
theorem insert_postconditions_original_flag (s : SuiState)
    (cid ch gps ag : Bytes) (ctx : TxContext) :
    (∃ r, anchor_original_media s cid ch gps ag ctx =
        Except.ok ⟨s.manifest, s.owned_media ++ [r], s.owned_anchors⟩ ∧
      r.is_original = true ∧ r.parent_id = NULL_ID ∧ r.edit_type = [] ∧
      r.creator = ctx.sender ∧ r.created_at = ctx.epoch_timestamp_ms ∧
      r.content_hash = ch ∧ r.ipfs_cid = cid) ∧
    (∀ (orig : MediaManifest) (cid2 ch2 et : Bytes) (ctx2 : TxContext),
      ∃ r, create_edited_version s orig cid2 ch2 et ctx2 =
          Except.ok ⟨s.manifest, s.owned_media ++ [r], s.owned_anchors⟩ ∧
        r.is_original = false) :=
  ⟨⟨_, rfl, rfl, rfl, rfl, rfl, rfl, rfl, rfl⟩,
    fun _ _ _ _ _ => ⟨_, rfl, rfl⟩⟩

/-- C5: a successful `create_edited_version` stores a record whose
`gps_coordinates` and `agency_id` are taken from the parent record (the
function offers no override parameter, so the default always applies), whose
`parent_id` is the parent's object id, with `is_original = false`, the
supplied `edit_type`, and a fresh `created_at` from the context clock rather
than the parent's timestamp. -/
theorem derivative_insert_postconditions (s : SuiState)
    (orig : MediaManifest) (cid ch et : Bytes) (ctx : TxContext) :
    ∃ r, create_edited_version s orig cid ch et ctx =
        Except.ok ⟨s.manifest, s.owned_media ++ [r], s.owned_anchors⟩ ∧
      r.gps_coordinates = orig.gps_coordinates ∧
      r.agency_id = orig.agency_id ∧
      r.parent_id = orig.id ∧
      r.is_original = false ∧
      r.edit_type = et ∧
      r.created_at = ctx.epoch_timestamp_ms ∧
      r.content_hash = ch ∧
      r.ipfs_cid = cid :=
  ⟨_, rfl, rfl, rfl, rfl, rfl, rfl, rfl, rfl, rfl⟩

/-- C10: neither `anchor_original_media` nor `create_edited_version` reads or
writes the shared `Manifest`: both succeed with the manifest component of the
state unchanged, so `verify_content` and `get_anchor_count` answer exactly as
before the call for every hash. -/
theorem media_ops_preserve_manifest (s : SuiState) (orig : MediaManifest)
    (cid ch gps ag et : Bytes) (ctx : TxContext) :
    ∃ s₁ s₂,
      anchor_original_media s cid ch gps ag ctx = Except.ok s₁ ∧
      create_edited_version s orig cid ch et ctx = Except.ok s₂ ∧
      s₁.manifest = s.manifest ∧ s₂.manifest = s.manifest ∧
      (∀ h2, verify_content s₁.manifest h2 = verify_content s.manifest h2) ∧
      (∀ h2, verify_content s₂.manifest h2 = verify_content s.manifest h2) ∧
      get_anchor_count s₁.manifest = get_anchor_count s.manifest ∧
      get_anchor_count s₂.manifest = get_anchor_count s.manifest :=
  ⟨_, _, rfl, rfl, rfl, rfl, fun _ => rfl, fun _ => rfl, rfl, rfl⟩

/-- Unrolling the pagination loop: with all borrows defined on the scanned
window, the loop returns the accumulated prefix followed by the records of
the `steps` hashes starting at position `i`. -/
theorem paginateLoop_spec (m : Manifest)
    (hb : ∀ ch ∈ m.content_hashes, (tableBorrow m.anchors ch).isSome = true) :
    ∀ (steps i : Nat) (acc : List AnchorInfo),
      i + steps ≤ m.content_hashes.length →
      paginateLoop m steps i acc =
        some (acc ++ ((m.content_hashes.drop i).take steps).filterMap
          (tableBorrow m.anchors)) := by
  intro steps
  induction steps with
  | zero => intro i acc _; simp [paginateLoop]
  | succ steps ih =>
    intro i acc hle
    have hi : i < m.content_hashes.length := by omega
    obtain ⟨info, hinfo⟩ := Option.isSome_iff_exists.mp
      (hb _ (List.getElem_mem hi))
    simp only [paginateLoop, List.getElem?_eq_getElem hi, hinfo]
    rw [ih (i + 1) (acc ++ [info]) (by omega)]
    rw [List.drop_eq_getElem_cons hi, List.take_succ_cons]
    rw [show List.filterMap (tableBorrow m.anchors)
        (m.content_hashes[i] ::
          (m.content_hashes.drop (i + 1)).take steps) =
      info :: List.filterMap (tableBorrow m.anchors)
        ((m.content_hashes.drop (i + 1)).take steps) by
      simp [List.filterMap_cons, hinfo]]
    simp

/-- `get_paginated_anchor_infos` computes the specification window when the
end-index addition does not overflow `u64`. -/
theorem get_paginated_eq (m : Manifest) (start limit : Nat)
    (hinv : manifestInv m) (hov : start + limit < U64_LIMIT) :
    get_paginated_anchor_infos m start limit =
      some (paginated_records m start limit) := by
  have hb := inv_borrow_isSome m hinv
  by_cases hs : m.content_hashes.length ≤ start
  · have hdrop : m.content_hashes.drop start = [] := List.drop_eq_nil_of_le hs
    simp [get_paginated_anchor_infos, hs, paginated_records,
      paginated_positions, hdrop]
  · push_neg at hs
    have hng : ¬ (start ≥ m.content_hashes.length) := by omega
    have hnov : ¬ (U64_LIMIT ≤ start + limit) := by omega
    simp only [get_paginated_anchor_infos]
    rw [if_neg hng, if_neg hnov]
    by_cases hlt : m.content_hashes.length < start + limit
    · rw [if_pos hlt]
      rw [paginateLoop_spec m hb (m.content_hashes.length - start) start []
        (by omega)]
      unfold paginated_records paginated_positions
      have hmin : min (start + limit) m.content_hashes.length =
          m.content_hashes.length := by omega
      rw [hmin]
      simp
    · rw [if_neg hlt]
      rw [paginateLoop_spec m hb (start + limit - start) start [] (by omega)]
      unfold paginated_records paginated_positions
      have hmin : min (start + limit) m.content_hashes.length - start =
          start + limit - start := by omega
      rw [hmin]
      simp

/-- Under the invariant, the pagination window holds exactly
`min(start + limit, count) - start` records. -/
theorem paginated_records_length (m : Manifest) (start limit : Nat)
    (hinv : manifestInv m) :
    (paginated_records m start limit).length =
      min (start + limit) (get_anchor_count m) - start := by
  unfold paginated_records paginated_positions
  rw [length_filterMap_isSome _ _ (fun x hx => inv_borrow_isSome m hinv x
    (List.mem_of_mem_drop (List.mem_of_mem_take hx)))]
  simp only [List.length_take, List.length_drop, get_anchor_count]
  omega

/-- C6: `get_content_hashes` returns the `content_hashes` field verbatim;
after any sequence of `create_anchor` requests starting from `init`, it lists
exactly the successfully inserted fingerprints in insertion order, and its
length is `get_anchor_count`.  Both reads are pure functions of the manifest,
hence stable across repeated calls. -/
theorem content_hashes_insertion_order :
    (∀ reqs : List (Bytes × TxContext),
      get_content_hashes (applyInserts reqs) = specInsertionOrder reqs ∧
      get_anchor_count (applyInserts reqs) =
        (specInsertionOrder reqs).length) ∧
    (∀ m : Manifest, get_content_hashes m = m.content_hashes) := by
  constructor
  · intro reqs
    have h := applyInserts_foldl reqs initManifest manifestInv_init
    exact ⟨h.1, congrArg List.length h.1⟩
  · intro m
    rfl

/-- C7 counterexample: on a two-anchor registry, the claim says
`get_paginated_anchor_infos(manifest, 1, 2^64 - 1)` returns the records at
positions `[1, min(2^64, 2)) = [1, 2)` — that is `[infoB]` — but the call
aborts (the `u64` addition `start + limit` overflows), so it does not return
that window. -/
theorem paginate_overflow_cx :
    manifestInv sampleManifest ∧
    paginated_records sampleManifest 1 (U64_LIMIT - 1) = [infoB] ∧
    get_paginated_anchor_infos sampleManifest 1 (U64_LIMIT - 1) = none ∧
    get_paginated_anchor_infos sampleManifest 1 (U64_LIMIT - 1) ≠
      some (paginated_records sampleManifest 1 (U64_LIMIT - 1)) := by
  decide

/-- C7 amended: for every manifest satisfying the registry invariant and all
`start`, `limit` whose sum does not overflow `u64`,
`get_paginated_anchor_infos` returns exactly the records at positions
`[start, min(start + limit, count))` of the insertion order; in particular
`start ≥ count` or `limit = 0` yields an empty sequence, not an error. -/
theorem paginate_returns_window (m : Manifest) (start limit : Nat)
    (hinv : manifestInv m) (hov : start + limit < U64_LIMIT) :
    get_paginated_anchor_infos m start limit =
      some (paginated_records m start limit) ∧
    (paginated_records m start limit).length =
      min (start + limit) (get_anchor_count m) - start ∧
    (get_anchor_count m ≤ start →
      get_paginated_anchor_infos m start limit = some []) ∧
    (limit = 0 → get_paginated_anchor_infos m start limit = some []) := by
  refine ⟨get_paginated_eq m start limit hinv hov,
    paginated_records_length m start limit hinv, ?_, ?_⟩
  · intro hs
    rw [get_anchor_count] at hs
    simp [get_paginated_anchor_infos, hs]
  · intro h0
    subst h0
    rw [get_paginated_eq m start 0 hinv hov]
    unfold paginated_records paginated_positions
    have hz : min (start + 0) m.content_hashes.length - start = 0 := by omega
    rw [hz]
    simp

/-- Witness for C7: paginating the sample registry with `start = 1`,
`limit = 5` behaves as the amended claim states. -/
theorem paginate_returns_window_witness :
    manifestInv sampleManifest ∧ 1 + 5 < U64_LIMIT ∧
    (get_paginated_anchor_infos sampleManifest 1 5 =
        some (paginated_records sampleManifest 1 5) ∧
      (paginated_records sampleManifest 1 5).length =
        min (1 + 5) (get_anchor_count sampleManifest) - 1 ∧
      (get_anchor_count sampleManifest ≤ 1 →
        get_paginated_anchor_infos sampleManifest 1 5 = some []) ∧
      (5 = 0 → get_paginated_anchor_infos sampleManifest 1 5 = some [])) :=
  ⟨by decide, by decide,
    paginate_returns_window sampleManifest 1 5 (by decide) (by decide)⟩

/-- C8 counterexample: a three-anchor registry satisfying the invariant on
which pagination aborts — `start = 2` is in range, but the end-index addition
`2 + (2^64 - 1)` overflows `u64`, so the call does not return a result. -/
theorem paginate_abort_cx :
    manifestInv wideManifest ∧
    (get_paginated_anchor_infos wideManifest 2 (U64_LIMIT - 1)).isSome =
      false := by
  decide

/-- C8 amended: under the registry invariant, `get_paginated_anchor_infos`
returns a result exactly when `start` is past the end (empty result) or the
`u64` addition `start + limit` does not overflow; the only abort is the
end-index overflow — never an out-of-bounds read or a missing-key lookup. -/
theorem paginate_total_iff_no_overflow (m : Manifest) (start limit : Nat)
    (hinv : manifestInv m) :
    (get_paginated_anchor_infos m start limit).isSome = true ↔
      (get_anchor_count m ≤ start ∨ start + limit < U64_LIMIT) := by
  constructor
  · intro h
    by_contra hc
    push_neg at hc
    obtain ⟨h1, h2⟩ := hc
    rw [get_anchor_count] at h1
    have hnone : get_paginated_anchor_infos m start limit = none := by
      simp only [get_paginated_anchor_infos]
      rw [if_neg (by omega), if_pos (by omega)]
    rw [hnone] at h
    exact Bool.noConfusion h
  · intro h
    rcases h with h | h
    · rw [get_anchor_count] at h
      have : get_paginated_anchor_infos m start limit = some [] := by
        simp [get_paginated_anchor_infos, h]
      rw [this]
      rfl
    · rw [get_paginated_eq m start limit hinv h]
      rfl

/-- Witness for C8: the amended totality claim instantiated on the
three-anchor registry with `start = 0`, `limit = 2`. -/
theorem paginate_total_iff_no_overflow_witness :
    manifestInv wideManifest ∧
    ((get_paginated_anchor_infos wideManifest 0 2).isSome = true ↔
      (get_anchor_count wideManifest ≤ 0 ∨ 0 + 2 < U64_LIMIT)) :=
  ⟨by decide, paginate_total_iff_no_overflow wideManifest 0 2 (by decide)⟩

/-- C9: when the fingerprint is present, `get_anchor_info` returns the stored
record and `try_get_anchor_info` returns it flagged `true`; when absent,
`get_anchor_info` aborts (returns no record at all, fabricated or otherwise)
and `try_get_anchor_info` returns the zero-filled default flagged `false` —
the flag always equals `verify_content`, so the not-found branch is
distinguishable from every stored record. -/
theorem lookup_distinguishable_not_found (m : Manifest) (ch : Bytes) :
    (verify_content m ch = true →
      ∃ info, get_anchor_info m ch = some info ∧
        try_get_anchor_info m ch = some (true, info)) ∧
    (verify_content m ch = false →
      get_anchor_info m ch = none ∧
      try_get_anchor_info m ch = some (false, defaultAnchorInfo)) ∧
    (try_get_anchor_info m ch).map Prod.fst = some (verify_content m ch) := by
  cases hc : tableContains m.anchors ch with
  | true =>
    obtain ⟨info, hinfo⟩ := Option.isSome_iff_exists.mp
      ((tableBorrow_isSome_iff _ _).mpr hc)
    refine ⟨fun _ => ⟨info, hinfo, ?_⟩, fun hfalse => ?_, ?_⟩
    · simp [try_get_anchor_info, hc, hinfo]
    · rw [verify_content, hc] at hfalse
      exact Bool.noConfusion hfalse
    · simp [try_get_anchor_info, verify_content, hc, hinfo]
  | false =>
    refine ⟨fun htrue => ?_, fun _ => ⟨tableBorrow_eq_none _ _ hc, ?_⟩, ?_⟩
    · rw [verify_content, hc] at htrue
      exact Bool.noConfusion htrue
    · simp [try_get_anchor_info, hc]
    · simp [try_get_anchor_info, verify_content, hc]

/-- Witness for C9: lookup of the present `hashA` and the absent
`hashAbsent` in the sample registry. -/
theorem lookup_distinguishable_not_found_witness :
    (∃ info, get_anchor_info sampleManifest hashA = some info ∧
      try_get_anchor_info sampleManifest hashA = some (true, info)) ∧
    (get_anchor_info sampleManifest hashAbsent = none ∧
      try_get_anchor_info sampleManifest hashAbsent =
        some (false, defaultAnchorInfo)) :=
  ⟨(lookup_distinguishable_not_found sampleManifest hashA).1 (by decide),
    (lookup_distinguishable_not_found sampleManifest hashAbsent).2.1
      (by decide)⟩

end SuiProof
